import Mathlib

/-!
CollectWise account ingestion: validation, upsert store, ingestion run and lookup handlers

A shallow embedding of `src/ingest.js`, `src/db.js` and the two lookup handlers of
`src/server.js`.

Modelling conventions.

* A JavaScript string is a Lean `String`; `String.prototype.trim` is `jsTrim`, which removes
  the ECMAScript `WhiteSpace` and `LineTerminator` code points from both ends.
* A value that is `undefined` (a column missing from a ragged CSV row, a missing query
  parameter) or `null` (an SQL NULL) is `none`.
* A JavaScript number produced by `parseFloat` is a `JSNumber`: either the exact mathematical
  value of the decimal literal that was read, or a signed infinity.  `NaN` is the `none` of
  `parseFloat`.  Rounding of the mathematical value to an IEEE-754 double is not modelled.
* The sql.js database is the list of rows of the `accounts` table, in insertion order, with
  the columns the program writes or reads back; the `id` column, which SQLite assigns and
  the program never reads, is left out.  SQLite is assumed to store and return text and
  numbers unchanged.
* `fs.writeFileSync` may throw: the file-system oracle `FsOracle` gives, for the n-th call
  made by the process, `none` when the write succeeds and `some msg` when it throws an
  error with message `msg`.
* `datetime('now')` is read from a clock oracle indexed by the row ordinal being processed.
* A source is the list of records csv-parse emits for an existing, well-formed file; the
  parser itself, the check that the file exists and console output are not modelled.
-/

namespace CollectWise

/-! ## JavaScript strings and numbers -/

/-- ECMAScript `WhiteSpace` and `LineTerminator` code points, the characters removed by
`String.prototype.trim` and skipped by `parseFloat`. -/
def isJSWhiteSpace (c : Char) : Bool :=
  let n := c.toNat
  n == 0x09 || n == 0x0A || n == 0x0B || n == 0x0C || n == 0x0D || n == 0x20 ||
  n == 0xA0 || n == 0x1680 || (0x2000 ≤ n && n ≤ 0x200A) || n == 0x2028 || n == 0x2029 ||
  n == 0x202F || n == 0x205F || n == 0x3000 || n == 0xFEFF

/-- Removal of leading white space (`TrimString(s, start)`). -/
def trimStart (cs : List Char) : List Char :=
  cs.dropWhile isJSWhiteSpace

/-- Removal of leading and trailing white space on the list of characters. -/
def trimChars (cs : List Char) : List Char :=
  ((trimStart cs).reverse.dropWhile isJSWhiteSpace).reverse

/-- `String.prototype.trim`. -/
def jsTrim (s : String) : String :=
  ⟨trimChars s.data⟩

/-- A number value other than `NaN`. -/
inductive JSNumber where
  | finite (value : ℚ)
  | infinity (negative : Bool)
  deriving DecidableEq

/-- Value of a run of decimal digits. -/
def digitsValue (ds : List Char) : Nat :=
  ds.foldl (fun acc c => 10 * acc + (c.toNat - 48)) 0

/-- The rational `m * 10 ^ e`. -/
def scale10 (m : Int) (e : Int) : ℚ :=
  match e with
  | Int.ofNat k => ((m * 10 ^ k : Int) : ℚ)
  | Int.negSucc k => mkRat m (10 ^ (k + 1))

/-- Value of the longest `ExponentPart` at the head of `cs` (`e` or `E`, an optional sign and
at least one digit), `0` when there is none. -/
def exponentPart (cs : List Char) : Int :=
  match cs with
  | [] => 0
  | c :: r =>
    if c == 'e' || c == 'E' then
      let signed : Bool × List Char :=
        match r with
        | '+' :: x => (false, x)
        | '-' :: x => (true, x)
        | _ => (false, r)
      let ds := signed.2.takeWhile Char.isDigit
      if ds.isEmpty then 0
      else if signed.1 then - (digitsValue ds : Int) else (digitsValue ds : Int)
    else 0

/-- Longest prefix of `cs` that is a `StrUnsignedDecimalLiteral`, with its value; `none` when
no prefix is one. -/
def strUnsignedDecimalLiteral (negative : Bool) (cs : List Char) : Option JSNumber :=
  if "Infinity".data.isPrefixOf cs then some (JSNumber.infinity negative)
  else
    let intDigits := cs.takeWhile Char.isDigit
    let rest := cs.dropWhile Char.isDigit
    let frac : List Char × List Char :=
      match rest with
      | '.' :: r => (r.takeWhile Char.isDigit, r.dropWhile Char.isDigit)
      | _ => ([], rest)
    if intDigits.isEmpty && frac.1.isEmpty then none
    else
      let mantissa : Int := (digitsValue (intDigits ++ frac.1) : Int)
      let signedMantissa : Int := if negative then - mantissa else mantissa
      some (JSNumber.finite (scale10 signedMantissa (exponentPart frac.2 - (frac.1.length : Int))))

/-- The global `parseFloat` applied to a string: leading white space is skipped, the longest
prefix that is a `StrDecimalLiteral` is read, whatever follows it is ignored; `none` is `NaN`. -/
def parseFloat (s : String) : Option JSNumber :=
  match trimStart s.data with
  | '+' :: r => strUnsignedDecimalLiteral false r
  | '-' :: r => strUnsignedDecimalLiteral true r
  | cs => strUnsignedDecimalLiteral false cs

/-! ## Row validation (`src/ingest.js`) -/

/-- A record produced by csv-parse with `columns: true`: each recognised column is a string,
or `undefined` when the row is shorter than the header or the header lacks the column. -/
structure Row where
  account_number : Option String := none
  debtor_name : Option String := none
  phone_number : Option String := none
  balance : Option String := none
  status : Option String := none
  client_name : Option String := none
  deriving DecidableEq

/-- The six fields of an account, as built by `validateRow` and returned by
`findAccountByNumber`. -/
structure Account where
  account_number : String
  debtor_name : Option String
  phone_number : Option String
  balance : JSNumber
  status : Option String
  client_name : Option String
  deriving DecidableEq

/-- Result object of `validateRow`. -/
structure Validation where
  valid : Bool
  errors : List String
  data : Option Account
  deriving DecidableEq

/-- The expression `v || null` for a string, `undefined` or `null` value `v`: the empty string
is falsy. -/
def orNull (v : Option String) : Option String :=
  match v with
  | some s => if s = "" then none else some s
  | none => none

/-- The expression `v?.trim() || null`. -/
def trimOrNull (v : Option String) : Option String :=
  orNull (v.map jsTrim)

/-- Message pushed for a row without account number. -/
def missingAccountNumberMessage (rowNumber : Nat) : String :=
  "Row " ++ toString rowNumber ++ ": Missing required field 'account_number'"

/-- Message pushed for a row whose balance `parseFloat` turns into `NaN`. -/
def invalidBalanceMessage (rowNumber : Nat) (balance : String) : String :=
  "Row " ++ toString rowNumber ++ ": Invalid balance '" ++ balance ++ "' - must be numeric"

/-- The balance branch of `validateRow`: `none` is the `isNaN` rejection. -/
def parseBalance (balance : Option String) : Option JSNumber :=
  match balance with
  | none => some (JSNumber.finite 0)
  | some b => if b = "" then some (JSNumber.finite 0) else parseFloat b

/-- Function `validateRow(row, rowNumber)`. -/
def validateRow (row : Row) (rowNumber : Nat) : Validation :=
  match row.account_number with
  | none => { valid := false, errors := [missingAccountNumberMessage rowNumber], data := none }
  | some acct =>
    if acct = "" ∨ jsTrim acct = "" then
      { valid := false, errors := [missingAccountNumberMessage rowNumber], data := none }
    else
      match parseBalance row.balance with
      | none =>
        { valid := false,
          errors := [invalidBalanceMessage rowNumber (row.balance.getD "")],
          data := none }
      | some balance =>
        { valid := true,
          errors := [],
          data := some
            { account_number := jsTrim acct,
              debtor_name := trimOrNull row.debtor_name,
              phone_number := trimOrNull row.phone_number,
              balance := balance,
              status := trimOrNull row.status,
              client_name := trimOrNull row.client_name } }

/-! ## The store (`src/db.js`) -/

/-- A row of the `accounts` table. -/
structure AccountRecord where
  account_number : String
  debtor_name : Option String
  phone_number : Option String
  balance : JSNumber
  status : Option String
  client_name : Option String
  created_at : String
  updated_at : String
  deriving DecidableEq

/-- Outcome of the n-th `fs.writeFileSync` call of the process: `none` when it succeeds,
`some msg` when it throws an error with message `msg`. -/
abbrev FsOracle := Nat → Option String

/-- Oracle in which every write succeeds. -/
def fsOk : FsOracle := fun _ => none

deriving instance DecidableEq for Except

/-- State of the `db.js` module and of the file at `DB_PATH`. -/
structure DbModule where
  /-- Module variable `db`: `none` is `null`, otherwise the rows of `accounts`. -/
  db : Option (List AccountRecord)
  /-- Table held by the file at `DB_PATH`, `none` when the file does not exist. -/
  file : Option (List AccountRecord)
  /-- Number of `fs.writeFileSync` calls made so far. -/
  writes : Nat
  deriving DecidableEq

/-- A state change together with the message of the error thrown, if any. -/
abbrev Effect := DbModule × Option String

/-- Function `saveDb()`.  A write that throws is taken to leave the file as it was. -/
def saveDb (fs : FsOracle) (m : DbModule) : Effect :=
  match m.db with
  | none => (m, none)
  | some table =>
    match fs m.writes with
    | none => ({ m with file := some table, writes := m.writes + 1 }, none)
    | some msg => ({ m with writes := m.writes + 1 }, some msg)

/-- Function `initDb()`: a no-op once `db` is set; otherwise the table of the file, or an
empty table, becomes `db`, and the database is saved. -/
def initDb (fs : FsOracle) (m : DbModule) : Effect :=
  match m.db with
  | some _ => (m, none)
  | none => saveDb fs { m with db := some (m.file.getD []) }

/-- The `DO UPDATE SET` clause applied to one row: the five mutable columns and `updated_at`
are overwritten, `account_number` and `created_at` are kept. -/
def updateRecord (now : String) (account : Account) (r : AccountRecord) : AccountRecord :=
  { r with
    debtor_name := orNull account.debtor_name,
    phone_number := orNull account.phone_number,
    balance := account.balance,
    status := orNull account.status,
    client_name := orNull account.client_name,
    updated_at := now }

/-- The row inserted when there is no conflict; `created_at` takes its column default. -/
def newRecord (now : String) (account : Account) : AccountRecord :=
  { account_number := account.account_number,
    debtor_name := orNull account.debtor_name,
    phone_number := orNull account.phone_number,
    balance := account.balance,
    status := orNull account.status,
    client_name := orNull account.client_name,
    created_at := now,
    updated_at := now }

/-- The statement `INSERT ... ON CONFLICT(account_number) DO UPDATE SET ...` on the table. -/
def upsertTable (now : String) (table : List AccountRecord) (account : Account) :
    List AccountRecord :=
  if table.any (fun r => r.account_number = account.account_number) then
    table.map (fun r =>
      if r.account_number = account.account_number then updateRecord now account r else r)
  else
    table ++ [newRecord now account]

/-- Message of the `TypeError` raised by a method call on the `null` database. -/
def nullDbMessage (method : String) : String :=
  "Cannot read properties of null (reading '" ++ method ++ "')"

/-- Function `upsertAccount(account)`: the statement runs, then the database is saved. -/
def upsertAccount (fs : FsOracle) (now : String) (m : DbModule) (account : Account) : Effect :=
  match m.db with
  | none => (m, some (nullDbMessage "prepare"))
  | some table => saveDb fs { m with db := some (upsertTable now table account) }

/-- The object built by `findAccountByNumber` from a selected row. -/
def AccountRecord.toAccount (r : AccountRecord) : Account :=
  { account_number := r.account_number,
    debtor_name := r.debtor_name,
    phone_number := r.phone_number,
    balance := r.balance,
    status := r.status,
    client_name := r.client_name }

/-- The query `SELECT * FROM accounts WHERE account_number = ?`, first row only. -/
def selectByNumber (table : List AccountRecord) (accountNumber : String) : Option Account :=
  (table.find? (fun r => r.account_number = accountNumber)).map AccountRecord.toAccount

/-- Function `findAccountByNumber(accountNumber)`; `Except.error` is a thrown error. -/
def findAccountByNumber (m : DbModule) (accountNumber : String) :
    Except String (Option Account) :=
  match m.db with
  | none => Except.error (nullDbMessage "prepare")
  | some table => Except.ok (selectByNumber table accountNumber)

/-- Function `getAccountCount()`. -/
def getAccountCount (m : DbModule) : Except String Nat :=
  match m.db with
  | none => Except.error (nullDbMessage "exec")
  | some table => Except.ok table.length

/-! ## The ingestion run (`src/ingest.js`) -/

/-- The `stats` object. -/
structure Stats where
  total : Nat
  inserted : Nat
  updated : Nat
  skipped : Nat
  errors : List String
  deriving DecidableEq

/-- State threaded through the `data` handler: `stats`, the set `seenAccounts` (in insertion
order) and the store. -/
structure Run where
  stats : Stats
  seenAccounts : List String
  store : DbModule
  deriving DecidableEq

/-- Message pushed when `upsertAccount` throws. -/
def databaseErrorMessage (rowNumber : Nat) (msg : String) : String :=
  "Row " ++ toString rowNumber ++ ": Database error - " ++ msg

/-- Method `Set.prototype.add`. -/
def setAdd (s : List String) (k : String) : List String :=
  if k ∈ s then s else s ++ [k]

/-- The parser `data` handler, for one row. -/
def onData (fs : FsOracle) (clock : Nat → String) (run : Run) (row : Row) : Run :=
  let total := run.stats.total + 1
  let rowNumber := total + 1
  let validation := validateRow row rowNumber
  if validation.valid = false then
    { run with
      stats := { run.stats with
        total := total,
        skipped := run.stats.skipped + 1,
        errors := run.stats.errors ++ validation.errors } }
  else
    match validation.data with
    | none =>
      -- not reached: `validateRow` returns `data` with every valid result
      { run with stats := { run.stats with total := total } }
    | some data =>
      let isDuplicate : Bool := decide (data.account_number ∈ run.seenAccounts)
      let seen := setAdd run.seenAccounts data.account_number
      match upsertAccount fs (clock rowNumber) run.store data with
      | (store, none) =>
        { stats :=
            if isDuplicate then
              { run.stats with total := total, updated := run.stats.updated + 1 }
            else
              { run.stats with total := total, inserted := run.stats.inserted + 1 },
          seenAccounts := seen,
          store := store }
      | (store, some msg) =>
        { stats := { run.stats with
            total := total,
            skipped := run.stats.skipped + 1,
            errors := run.stats.errors ++ [databaseErrorMessage rowNumber msg] },
          seenAccounts := seen,
          store := store }

/-- The run state when the parser starts. -/
def startRun (m : DbModule) : Run :=
  { stats := { total := 0, inserted := 0, updated := 0, skipped := 0, errors := [] },
    seenAccounts := [],
    store := m }

/-- The `data` handler over the rows of the source, in file order. -/
def processRows (fs : FsOracle) (clock : Nat → String) (run : Run) (rows : List Row) : Run :=
  rows.foldl (onData fs clock) run

/-- Function `ingestCSV` on the rows parsed from an existing, well-formed source: the store
is initialised, every row goes through the `data` handler, and the `end` handler saves the
database and resolves with `stats`.  `Except.error` is the run that ends with an error
thrown by `initDb` or by the final `saveDb`. -/
def ingestCSV (fs : FsOracle) (clock : Nat → String) (m : DbModule) (rows : List Row) :
    DbModule × Except String Stats :=
  match initDb fs m with
  | (m1, some msg) => (m1, Except.error msg)
  | (m1, none) =>
    let run := processRows fs clock (startRun m1) rows
    match saveDb fs run.store with
    | (m2, some msg) => (m2, Except.error msg)
    | (m2, none) => (m2, Except.ok run.stats)

/-! ## The lookup handlers (`src/server.js`) -/

/-- Body of a JSON response. -/
inductive Body where
  | account (account : Account)
  | error (error : String) (message : String) (exampleUrl : Option String)
  deriving DecidableEq

/-- A response together with the arguments of the `findAccountByNumber` calls made while
handling the request, in call order. -/
structure Handled where
  status : Nat
  body : Body
  storeQueries : List String
  deriving DecidableEq

/-- A value of `req.query.account_number`: absent, a string, or an array or object (built by
the query parser from a repeated or bracketed parameter), which is truthy and has no `trim`. -/
inductive QueryValue where
  | undefined
  | string (s : String)
  | other
  deriving DecidableEq

/-- The response of the `catch` block of both lookup handlers. -/
def internalServerError (storeQueries : List String) : Handled :=
  { status := 500,
    body := Body.error "Internal Server Error" "An error occurred while looking up the account" none,
    storeQueries := storeQueries }

/-- The `try` block of both lookup handlers once `accountNumber` is known to be a string:
the store is queried with the trimmed key. -/
def respondWithAccount (m : DbModule) (accountNumber : String) : Handled :=
  let key := jsTrim accountNumber
  match findAccountByNumber m key with
  | Except.error _ => internalServerError [key]
  | Except.ok none =>
    { status := 404,
      body := Body.error "Not Found"
        ("Account with number '" ++ accountNumber ++ "' does not exist") none,
      storeQueries := [key] }
  | Except.ok (some account) =>
    { status := 200, body := Body.account account, storeQueries := [key] }

/-- Handler of `GET /accounts/:accountNumber`, on `req.params.accountNumber`. -/
def getAccountByPath (m : DbModule) (accountNumber : Option String) : Handled :=
  let badRequest : Handled :=
    { status := 400,
      body := Body.error "Bad Request" "Account number is required" none,
      storeQueries := [] }
  match accountNumber with
  | none => badRequest
  | some s => if s = "" ∨ jsTrim s = "" then badRequest else respondWithAccount m s

/-- Handler of `GET /accounts`, on `req.query.account_number`. -/
def getAccountByQuery (m : DbModule) (accountNumber : QueryValue) : Handled :=
  let badRequest : Handled :=
    { status := 400,
      body := Body.error "Bad Request" "Please provide an account_number query parameter"
        (some "/accounts?account_number=ACC001"),
      storeQueries := [] }
  match accountNumber with
  | QueryValue.undefined => badRequest
  | QueryValue.string s => if s = "" then badRequest else respondWithAccount m s
  | QueryValue.other => internalServerError []

/-! ## Vocabulary of the statements -/

/-- The record `validateRow` builds for a row, `none` when the row is rejected; the row
number only appears in the messages. -/
def normalizedData (row : Row) : Option Account :=
  (validateRow row 0).data

/-- The records of the rows of a source that pass validation, in file order. -/
def validAccounts (rows : List Row) : List Account :=
  rows.filterMap normalizedData

/-- The trimmed account numbers of the rows that pass validation, in file order. -/
def validKeys (rows : List Row) : List String :=
  (validAccounts rows).map (fun a => a.account_number)

/-- The record of the last valid row of the source whose trimmed account number is `k`. -/
def lastValid (rows : List Row) (k : String) : Option Account :=
  ((validAccounts rows).filter (fun a => a.account_number = k)).getLast?

/-- The `account_number` column of a table. -/
def tableKeys (table : List AccountRecord) : List String :=
  table.map (fun r => r.account_number)

/-- The six values `upsertAccount` binds to its statement for an account. -/
def boundValues (a : Account) : Account :=
  { account_number := a.account_number,
    debtor_name := orNull a.debtor_name,
    phone_number := orNull a.phone_number,
    balance := a.balance,
    status := orNull a.status,
    client_name := orNull a.client_name }

/-- A sequence of `upsertAccount` calls, each at its own time; errors thrown by the save
are ignored by the caller. -/
def upsertAll (fs : FsOracle) (m : DbModule) (calls : List (String × Account)) : DbModule :=
  calls.foldl (fun s c => (upsertAccount fs c.1 s c.2).1) m

/-- Successive `ingestCSV` runs, each over its own source and with its own file-system and
clock behaviour; a run that ends with an error leaves the store as it is at that point. -/
def ingestAll (m : DbModule) (runs : List (FsOracle × (Nat → String) × List Row)) : DbModule :=
  runs.foldl (fun s r => (ingestCSV r.1 r.2.1 s r.2.2).1) m

/-- The state of an `ingestCSV` run once the first rows `pre` of the source have gone through
the `data` handler. -/
def runAfter (fs : FsOracle) (clock : Nat → String) (m : DbModule) (pre : List Row) : Run :=
  processRows fs clock (startRun (initDb fs m).1) pre

/-- The messages the `data` handler appends to `stats.errors` for one row. -/
def rowMessages (fs : FsOracle) (clock : Nat → String) (run : Run) (row : Row) : List String :=
  (onData fs clock run row).stats.errors.drop run.stats.errors.length

/-- The whole of a string, once trimmed, is a finite decimal number: an optional sign, digits
with an optional fraction (or a fraction alone), and an optional exponent, with nothing after
it.  This is the requirement on a present balance as the specification words it. -/
def isFiniteDecimal (s : String) : Bool :=
  let cs := trimChars s.data
  let body : List Char :=
    match cs with
    | '+' :: r => r
    | '-' :: r => r
    | _ => cs
  let intDigits := body.takeWhile Char.isDigit
  let rest := body.dropWhile Char.isDigit
  let frac : List Char × List Char :=
    match rest with
    | '.' :: r => (r.takeWhile Char.isDigit, r.dropWhile Char.isDigit)
    | _ => ([], rest)
  let exponentOrEnd : Bool :=
    match frac.2 with
    | [] => true
    | c :: r =>
      (c == 'e' || c == 'E') &&
        (match r with
         | '+' :: x => !x.isEmpty && x.all Char.isDigit
         | '-' :: x => !x.isEmpty && x.all Char.isDigit
         | _ => !r.isEmpty && r.all Char.isDigit)
  (!intDigits.isEmpty || !frac.1.isEmpty) && exponentOrEnd

/-- A store that has been initialised and holds no account. -/
def emptyStore : DbModule :=
  { db := some [], file := some [], writes := 1 }

/-- An initialised store that already holds account "A1", with balance 7 and a debtor name. -/
def storeWithA1 : DbModule :=
  { db := some
      [{ account_number := "A1", debtor_name := some "Ann", phone_number := none,
         balance := JSNumber.finite 7, status := none, client_name := none,
         created_at := "t0", updated_at := "t0" }],
    file := none,
    writes := 1 }

/-- A row with an account number and a balance only. -/
def rowOf (accountNumber balance : String) : Row :=
  { account_number := some accountNumber, balance := some balance }

/-- The record of a row with an account number and a balance only. -/
def accountOf (accountNumber : String) (balance : ℚ) : Account :=
  { account_number := accountNumber,
    debtor_name := none,
    phone_number := none,
    balance := JSNumber.finite balance,
    status := none,
    client_name := none }

/-- An output field is the trimmed input when that is a non-empty string, and `null` when the
input is absent or empty after trimming. -/
def TrimmedOrNull (input output : Option String) : Prop :=
  (output = none ∧ (input = none ∨ ∃ s, input = some s ∧ jsTrim s = "")) ∨
  (∃ s, input = some s ∧ jsTrim s ≠ "" ∧ output = some (jsTrim s))

/-! ## Validation -/

theorem validateRow_data (row : Row) (n : Nat) :
    (validateRow row n).data = normalizedData row := by
  unfold normalizedData validateRow
  cases row.account_number with
  | none => rfl
  | some acct =>
    by_cases h : acct = "" ∨ jsTrim acct = ""
    · simp [h]
    · simp only [h, if_false]
      cases parseBalance row.balance <;> rfl

theorem validateRow_valid (row : Row) (n : Nat) :
    (validateRow row n).valid = (normalizedData row).isSome := by
  unfold normalizedData validateRow
  cases row.account_number with
  | none => rfl
  | some acct =>
    by_cases h : acct = "" ∨ jsTrim acct = ""
    · simp [h]
    · simp only [h, if_false]
      cases parseBalance row.balance <;> rfl

theorem orNull_orNull (v : Option String) : orNull (orNull v) = orNull v := by
  cases v with
  | none => rfl
  | some s =>
    by_cases h : s = ""
    · simp [orNull, h]
    · simp [orNull, h]

theorem orNull_trimOrNull (v : Option String) : orNull (trimOrNull v) = trimOrNull v :=
  orNull_orNull _

theorem trimOrNull_spec (v : Option String) : TrimmedOrNull v (trimOrNull v) := by
  cases v with
  | none => exact Or.inl ⟨rfl, Or.inl rfl⟩
  | some s =>
    by_cases h : jsTrim s = ""
    · exact Or.inl ⟨by simp [trimOrNull, orNull, h], Or.inr ⟨s, rfl, h⟩⟩
    · exact Or.inr ⟨s, rfl, h, by simp [trimOrNull, orNull, h]⟩

theorem trimOrNull_ne_empty (v : Option String) : trimOrNull v ≠ some "" := by
  cases v with
  | none => simp [trimOrNull, orNull]
  | some s =>
    by_cases h : jsTrim s = ""
    · simp [trimOrNull, orNull, h]
    · simp only [trimOrNull, orNull, Option.map_some', h, if_false]
      intro hc
      exact h (Option.some.inj hc)

/-- Shape of a record that passed validation. -/
theorem normalizedData_eq_some {row : Row} {a : Account} (h : normalizedData row = some a) :
    ∃ acct balance, row.account_number = some acct ∧ jsTrim acct ≠ "" ∧
      parseBalance row.balance = some balance ∧
      a = { account_number := jsTrim acct,
            debtor_name := trimOrNull row.debtor_name,
            phone_number := trimOrNull row.phone_number,
            balance := balance,
            status := trimOrNull row.status,
            client_name := trimOrNull row.client_name } := by
  unfold normalizedData validateRow at h
  cases hk : row.account_number with
  | none => simp [hk] at h
  | some acct =>
    rw [hk] at h
    by_cases hb : acct = "" ∨ jsTrim acct = ""
    · simp [hb] at h
    · simp only [hb, if_false] at h
      cases hp : parseBalance row.balance with
      | none => simp [hp] at h
      | some balance =>
        simp only [hp] at h
        exact ⟨acct, balance, rfl, fun hc => hb (Or.inr hc), rfl, (Option.some.inj h).symm⟩

/-! ## The table under `upsertTable` -/

theorem mem_tableKeys_iff (table : List AccountRecord) (k : String) :
    (table.any (fun r => decide (r.account_number = k))) = true ↔ k ∈ tableKeys table := by
  simp [tableKeys, List.any_eq_true]

theorem tableKeys_upsertTable (now : String) (table : List AccountRecord) (a : Account) :
    tableKeys (upsertTable now table a) =
      if a.account_number ∈ tableKeys table then tableKeys table
      else tableKeys table ++ [a.account_number] := by
  unfold upsertTable
  by_cases h : a.account_number ∈ tableKeys table
  · have h2 := (mem_tableKeys_iff table a.account_number).2 h
    simp only [h2, h, if_true]
    unfold tableKeys
    rw [List.map_map]
    apply List.map_congr_left
    intro r _
    by_cases hr : r.account_number = a.account_number
    · simp [hr, updateRecord]
    · simp [hr]
  · have h2 : (table.any (fun r => decide (r.account_number = a.account_number))) = false := by
      cases hc : table.any (fun r => decide (r.account_number = a.account_number)) with
      | false => rfl
      | true => exact absurd ((mem_tableKeys_iff table a.account_number).1 hc) h
    rw [if_neg h]
    simp [h2, tableKeys, newRecord]

theorem selectByNumber_isSome {table : List AccountRecord} {k : String}
    (h : k ∈ tableKeys table) : ∃ r ∈ table, r.account_number = k ∧
      table.find? (fun r => decide (r.account_number = k)) = some r := by
  induction table with
  | nil => simp [tableKeys] at h
  | cons x xs ih =>
    by_cases hx : x.account_number = k
    · exact ⟨x, List.mem_cons_self _ _, hx, by simp [hx]⟩
    · have hmem : k ∈ tableKeys xs := by
        simp only [tableKeys, List.map_cons, List.mem_cons] at h
        rcases h with h | h
        · exact absurd h.symm hx
        · exact h
      obtain ⟨r, hr, hk, hf⟩ := ih hmem
      exact ⟨r, List.mem_cons_of_mem _ hr, hk, by simp [hx, hf]⟩

theorem selectByNumber_upsertTable (now : String) (table : List AccountRecord) (a : Account)
    (k : String) :
    selectByNumber (upsertTable now table a) k =
      if a.account_number = k then some (boundValues a) else selectByNumber table k := by
  unfold upsertTable
  by_cases h : a.account_number ∈ tableKeys table
  · have h2 := (mem_tableKeys_iff table a.account_number).2 h
    simp only [h2, if_true]
    unfold selectByNumber
    rw [List.find?_map]
    have hp : ((fun r : AccountRecord => decide (r.account_number = k)) ∘
        (fun r => if r.account_number = a.account_number then updateRecord now a r else r))
        = (fun r : AccountRecord => decide (r.account_number = k)) := by
      funext r
      by_cases hr : r.account_number = a.account_number
      · simp [hr, updateRecord]
      · simp [hr]
    rw [hp]
    by_cases hk : a.account_number = k
    · subst hk
      obtain ⟨r, _, hrk, hf⟩ := selectByNumber_isSome h
      simp [hf, hrk, updateRecord, AccountRecord.toAccount, boundValues]
    · simp only [hk, if_false]
      cases hf : table.find? (fun r => decide (r.account_number = k)) with
      | none => rfl
      | some r =>
        have hrk : r.account_number = k := by
          have := List.find?_some hf
          simpa using this
        have hne : r.account_number ≠ a.account_number := fun hc => hk (hc ▸ hrk)
        simp [hne]
  · have h2 : (table.any (fun r => decide (r.account_number = a.account_number))) = false := by
      cases hc : table.any (fun r => decide (r.account_number = a.account_number)) with
      | false => rfl
      | true => exact absurd ((mem_tableKeys_iff table a.account_number).1 hc) h
    simp only [h2]
    by_cases hk : a.account_number = k
    · subst hk
      have hnone : table.find? (fun r => decide (r.account_number = a.account_number)) = none := by
        rw [List.find?_eq_none]
        intro r hr hc
        exact h (List.mem_map.2 ⟨r, hr, by simpa using hc⟩)
      simp [selectByNumber, List.find?_append, hnone, newRecord, AccountRecord.toAccount,
        boundValues]
    · simp [selectByNumber, List.find?_append, newRecord, hk]

theorem boundValues_of_valid {row : Row} {a : Account} (h : normalizedData row = some a) :
    boundValues a = a := by
  obtain ⟨acct, balance, _, _, _, rfl⟩ := normalizedData_eq_some h
  simp [boundValues, orNull_trimOrNull]

/-! ## Effects of `saveDb`, `initDb` and `upsertAccount` -/

theorem saveDb_db (fs : FsOracle) (m : DbModule) : (saveDb fs m).1.db = m.db := by
  unfold saveDb
  cases hdb : m.db with
  | none => simp [hdb]
  | some t => cases hfs : fs m.writes <;> simp [hdb]

theorem saveDb_writes (fs : FsOracle) {m : DbModule} {t : List AccountRecord}
    (h : m.db = some t) : (saveDb fs m).1.writes = m.writes + 1 := by
  unfold saveDb
  rw [h]
  cases hfs : fs m.writes <;> rfl

theorem saveDb_thrown (fs : FsOracle) {m : DbModule} {t : List AccountRecord}
    (h : m.db = some t) : (saveDb fs m).2 = fs m.writes := by
  unfold saveDb
  rw [h]
  cases hfs : fs m.writes <;> rfl

theorem upsertAccount_db (fs : FsOracle) (now : String) {m : DbModule}
    {t : List AccountRecord} (a : Account) (h : m.db = some t) :
    (upsertAccount fs now m a).1.db = some (upsertTable now t a) := by
  unfold upsertAccount
  rw [h]
  exact saveDb_db fs _

theorem upsertAccount_writes (fs : FsOracle) (now : String) {m : DbModule}
    {t : List AccountRecord} (a : Account) (h : m.db = some t) :
    (upsertAccount fs now m a).1.writes = m.writes + 1 := by
  unfold upsertAccount
  rw [h]
  exact saveDb_writes fs (t := upsertTable now t a) rfl

theorem upsertAccount_thrown (fs : FsOracle) (now : String) {m : DbModule}
    {t : List AccountRecord} (a : Account) (h : m.db = some t) :
    (upsertAccount fs now m a).2 = fs m.writes := by
  unfold upsertAccount
  rw [h]
  exact saveDb_thrown fs (t := upsertTable now t a) rfl

theorem initDb_of_some (fs : FsOracle) {m : DbModule} {t : List AccountRecord}
    (h : m.db = some t) : initDb fs m = (m, none) := by
  unfold initDb
  rw [h]

theorem initDb_db_isSome (fs : FsOracle) (m : DbModule) :
    ∃ t, (initDb fs m).1.db = some t := by
  unfold initDb
  cases hdb : m.db with
  | some t => exact ⟨t, by simp [hdb]⟩
  | none => exact ⟨m.file.getD [], by simp [saveDb_db]⟩

/-! ## One step of the `data` handler -/

theorem onData_invalid (fs : FsOracle) (clock : Nat → String) (run : Run) {row : Row}
    (h : normalizedData row = none) :
    onData fs clock run row =
      { run with
        stats := { run.stats with
          total := run.stats.total + 1,
          skipped := run.stats.skipped + 1,
          errors := run.stats.errors ++ (validateRow row (run.stats.total + 1 + 1)).errors } } := by
  unfold onData
  simp [validateRow_valid, h]

theorem onData_valid (fs : FsOracle) (clock : Nat → String) (run : Run) {row : Row}
    {a : Account} (h : normalizedData row = some a) :
    onData fs clock run row =
      match upsertAccount fs (clock (run.stats.total + 1 + 1)) run.store a with
      | (store, none) =>
        { stats :=
            if decide (a.account_number ∈ run.seenAccounts) then
              { run.stats with total := run.stats.total + 1, updated := run.stats.updated + 1 }
            else
              { run.stats with total := run.stats.total + 1, inserted := run.stats.inserted + 1 },
          seenAccounts := setAdd run.seenAccounts a.account_number,
          store := store }
      | (store, some msg) =>
        { stats := { run.stats with
            total := run.stats.total + 1,
            skipped := run.stats.skipped + 1,
            errors := run.stats.errors ++
              [databaseErrorMessage (run.stats.total + 1 + 1) msg] },
          seenAccounts := setAdd run.seenAccounts a.account_number,
          store := store } := by
  unfold onData
  simp [validateRow_valid, validateRow_data, h]

theorem onData_store (fs : FsOracle) (clock : Nat → String) (run : Run) (row : Row) :
    (onData fs clock run row).store =
      match normalizedData row with
      | none => run.store
      | some a => (upsertAccount fs (clock (run.stats.total + 1 + 1)) run.store a).1 := by
  cases h : normalizedData row with
  | none => rw [onData_invalid fs clock run h]
  | some a =>
    rw [onData_valid fs clock run h]
    show _ = (upsertAccount fs (clock (run.stats.total + 1 + 1)) run.store a).1
    rcases hu : upsertAccount fs (clock (run.stats.total + 1 + 1)) run.store a with ⟨store, e⟩
    cases e <;> rfl

theorem onData_seenAccounts (fs : FsOracle) (clock : Nat → String) (run : Run) (row : Row) :
    (onData fs clock run row).seenAccounts =
      match normalizedData row with
      | none => run.seenAccounts
      | some a => setAdd run.seenAccounts a.account_number := by
  cases h : normalizedData row with
  | none => rw [onData_invalid fs clock run h]
  | some a =>
    rw [onData_valid fs clock run h]
    rcases hu : upsertAccount fs (clock (run.stats.total + 1 + 1)) run.store a with ⟨store, e⟩
    cases e <;> rfl

theorem onData_total (fs : FsOracle) (clock : Nat → String) (run : Run) (row : Row) :
    (onData fs clock run row).stats.total = run.stats.total + 1 := by
  cases h : normalizedData row with
  | none => rw [onData_invalid fs clock run h]
  | some a =>
    rw [onData_valid fs clock run h]
    rcases hu : upsertAccount fs (clock (run.stats.total + 1 + 1)) run.store a with ⟨store, e⟩
    cases e
    · by_cases hd : a.account_number ∈ run.seenAccounts <;> simp [hd]
    · rfl

theorem onData_db (fs : FsOracle) (clock : Nat → String) {run : Run} (row : Row)
    {t : List AccountRecord} (h : run.store.db = some t) :
    (onData fs clock run row).store.db =
      some (match normalizedData row with
        | none => t
        | some a => upsertTable (clock (run.stats.total + 1 + 1)) t a) := by
  rw [onData_store]
  cases hn : normalizedData row with
  | none => simpa using h
  | some a => simpa using upsertAccount_db fs _ a h

theorem onData_writes (fs : FsOracle) (clock : Nat → String) {run : Run} (row : Row)
    {t : List AccountRecord} (h : run.store.db = some t) :
    (onData fs clock run row).store.writes =
      run.store.writes + (if (normalizedData row).isSome then 1 else 0) := by
  rw [onData_store]
  cases hn : normalizedData row with
  | none => simp
  | some a => simpa using upsertAccount_writes fs _ a h

/-! ## The set of seen account numbers -/

theorem mem_setAdd (s : List String) (k x : String) : x ∈ setAdd s k ↔ x ∈ s ∨ x = k := by
  unfold setAdd
  by_cases h : k ∈ s
  · simp only [h, if_true]
    constructor
    · exact Or.inl
    · rintro (hx | hx)
      · exact hx
      · exact hx ▸ h
  · simp [h]

theorem nodup_setAdd {s : List String} (k : String) (h : s.Nodup) : (setAdd s k).Nodup := by
  unfold setAdd
  by_cases hk : k ∈ s
  · simpa [hk] using h
  · simp only [hk, if_false]
    exact List.Nodup.append h (List.nodup_singleton k) (by simpa using hk)

theorem mem_foldl_setAdd (ks s : List String) (x : String) :
    x ∈ ks.foldl setAdd s ↔ x ∈ s ∨ x ∈ ks := by
  induction ks generalizing s with
  | nil => simp
  | cons k ks ih =>
    rw [List.foldl_cons, ih, mem_setAdd, List.mem_cons]
    tauto

theorem nodup_foldl_setAdd (ks : List String) {s : List String} (h : s.Nodup) :
    (ks.foldl setAdd s).Nodup := by
  induction ks generalizing s with
  | nil => exact h
  | cons k ks ih => exact ih (nodup_setAdd k h)

theorem foldl_setAdd_of_subset (ks : List String) {s : List String} (h : ∀ k ∈ ks, k ∈ s) :
    ks.foldl setAdd s = s := by
  induction ks with
  | nil => rfl
  | cons k ks ih =>
    have hk : k ∈ s := h k (List.mem_cons_self _ _)
    rw [List.foldl_cons]
    have : setAdd s k = s := by simp [setAdd, hk]
    rw [this]
    exact ih (fun x hx => h x (List.mem_cons_of_mem _ hx))

theorem length_foldl_setAdd_nil (ks : List String) :
    (ks.foldl setAdd []).length = ks.dedup.length := by
  apply List.Perm.length_eq
  rw [List.perm_ext_iff_of_nodup (nodup_foldl_setAdd ks List.nodup_nil) (List.nodup_dedup ks)]
  intro x
  rw [mem_foldl_setAdd, List.mem_dedup]
  simp

theorem setAdd_eq_upsert_keys (now : String) (table : List AccountRecord) (a : Account) :
    tableKeys (upsertTable now table a) = setAdd (tableKeys table) a.account_number := by
  rw [tableKeys_upsertTable]
  rfl

/-! ## The source as a whole -/

theorem validAccounts_append (xs ys : List Row) :
    validAccounts (xs ++ ys) = validAccounts xs ++ validAccounts ys := by
  simp [validAccounts]

theorem validAccounts_singleton (x : Row) :
    validAccounts [x] = (normalizedData x).toList := by
  cases h : normalizedData x <;> simp [validAccounts, List.filterMap_cons, h]

theorem validKeys_append (xs ys : List Row) :
    validKeys (xs ++ ys) = validKeys xs ++ validKeys ys := by
  simp [validKeys, validAccounts_append]

theorem lastValid_concat (xs : List Row) (x : Row) (k : String) :
    lastValid (xs ++ [x]) k =
      ((normalizedData x).filter (fun a => decide (a.account_number = k))).or (lastValid xs k) := by
  unfold lastValid
  rw [validAccounts_append, List.filter_append, List.getLast?_append, validAccounts_singleton]
  cases h : normalizedData x with
  | none => simp
  | some a =>
    by_cases hk : a.account_number = k
    · simp [Option.filter, hk]
    · simp [Option.filter, hk]

theorem processRows_concat (fs : FsOracle) (clock : Nat → String) (run : Run) (xs : List Row)
    (x : Row) :
    processRows fs clock run (xs ++ [x]) = onData fs clock (processRows fs clock run xs) x := by
  simp [processRows, List.foldl_append]

theorem processRows_total (fs : FsOracle) (clock : Nat → String) (run : Run) (rows : List Row) :
    (processRows fs clock run rows).stats.total = run.stats.total + rows.length := by
  induction rows using List.reverseRecOn with
  | nil => rfl
  | append_singleton xs x ih =>
    rw [processRows_concat, onData_total, ih, List.length_append, List.length_singleton]
    omega

theorem processRows_seenAccounts (fs : FsOracle) (clock : Nat → String) (run : Run)
    (rows : List Row) :
    (processRows fs clock run rows).seenAccounts =
      (validKeys rows).foldl setAdd run.seenAccounts := by
  induction rows using List.reverseRecOn with
  | nil => rfl
  | append_singleton xs x ih =>
    rw [processRows_concat, onData_seenAccounts, ih, validKeys_append, List.foldl_append]
    cases h : normalizedData x <;> simp [validKeys, validAccounts_singleton, h]

/-- The table after the rows of a source have gone through the `data` handler: what a
lookup returns, which keys it holds, and how many times the database has been saved. -/
theorem processRows_table (fs : FsOracle) (clock : Nat → String) {run : Run}
    {t : List AccountRecord} (h : run.store.db = some t) (rows : List Row) :
    ∃ t', (processRows fs clock run rows).store.db = some t' ∧
      (∀ k, selectByNumber t' k = (lastValid rows k).or (selectByNumber t k)) ∧
      tableKeys t' = (validKeys rows).foldl setAdd (tableKeys t) ∧
      (processRows fs clock run rows).store.writes =
        run.store.writes + (validAccounts rows).length := by
  induction rows using List.reverseRecOn with
  | nil => exact ⟨t, h, fun k => by simp [lastValid, validAccounts], rfl, rfl⟩
  | append_singleton xs x ih =>
    obtain ⟨t1, hdb, hsel, hkeys, hw⟩ := ih
    rw [processRows_concat]
    refine ⟨_, onData_db fs clock x hdb, ?_, ?_, ?_⟩
    · intro k
      rw [lastValid_concat]
      cases hx : normalizedData x with
      | none => simpa using hsel k
      | some a =>
        simp only [selectByNumber_upsertTable, boundValues_of_valid hx]
        by_cases hk : a.account_number = k
        · simp [Option.filter, hk]
        · simp [Option.filter, hk, hsel k]
    · rw [validKeys_append, List.foldl_append, ← hkeys]
      cases hx : normalizedData x with
      | none => simp [validKeys, validAccounts_singleton, hx]
      | some a => simp [validKeys, validAccounts_singleton, hx, setAdd_eq_upsert_keys]
    · rw [onData_writes fs clock x hdb, hw, validAccounts_append, validAccounts_singleton,
        List.length_append]
      cases hx : normalizedData x <;> simp [Nat.add_assoc]

theorem length_validAccounts (rows : List Row) :
    (validAccounts rows).length + rows.countP (fun r => (normalizedData r).isNone) =
      rows.length := by
  induction rows with
  | nil => rfl
  | cons x xs ih =>
    cases h : normalizedData x with
    | none =>
      simp only [validAccounts, List.filterMap_cons, h, List.countP_cons, Option.isNone_none,
        if_true, List.length_cons] at ih ⊢
      omega
    | some a =>
      simp only [validAccounts, List.filterMap_cons, h, List.countP_cons, Option.isNone_some,
        List.length_cons] at ih ⊢
      simp at ih ⊢
      omega

/-- Counters of the `data` handler when no save fails. -/
theorem processRows_stats (fs : FsOracle) (clock : Nat → String) {run : Run}
    {t : List AccountRecord} (h : run.store.db = some t) (hfs : ∀ n, fs n = none)
    (rows : List Row) :
    (processRows fs clock run rows).stats.skipped + (validAccounts rows).length =
        run.stats.skipped + rows.length ∧
      (processRows fs clock run rows).stats.inserted + run.seenAccounts.length =
        run.stats.inserted + (processRows fs clock run rows).seenAccounts.length ∧
      (processRows fs clock run rows).stats.inserted + (processRows fs clock run rows).stats.updated =
        run.stats.inserted + run.stats.updated + (validAccounts rows).length := by
  induction rows using List.reverseRecOn with
  | nil => simp [processRows, validAccounts]
  | append_singleton xs x ih =>
    obtain ⟨t1, hdb, _, _, _⟩ := processRows_table fs clock h xs
    obtain ⟨h1, h2, h3⟩ := ih
    rw [processRows_concat, validAccounts_append, validAccounts_singleton]
    cases hx : normalizedData x with
    | none =>
      rw [onData_invalid fs clock _ hx]
      simp only [Option.toList, List.length_append, List.length_singleton, List.length_nil]
      omega
    | some a =>
      rw [onData_valid fs clock _ hx]
      have hthrown := upsertAccount_thrown fs
        (clock ((processRows fs clock run xs).stats.total + 1 + 1)) a hdb
      rw [hfs] at hthrown
      rcases hu : upsertAccount fs (clock ((processRows fs clock run xs).stats.total + 1 + 1))
        (processRows fs clock run xs).store a with ⟨store, e⟩
      rw [hu] at hthrown
      simp only at hthrown
      subst hthrown
      simp only [Option.toList, List.length_append, List.length_singleton]
      by_cases hd : a.account_number ∈ (processRows fs clock run xs).seenAccounts
      · simp only [hd, decide_True, if_true, setAdd]
        omega
      · simp only [hd, decide_False, setAdd, if_false, List.length_append,
          List.length_singleton]
        simp
        omega

/-! ## Messages -/

theorem missingAccountNumberMessage_eq (n : Nat) :
    missingAccountNumberMessage n =
      "Row " ++ toString n ++ ": " ++ "Missing required field 'account_number'" := by
  unfold missingAccountNumberMessage
  rw [String.append_assoc ("Row " ++ toString n)]
  rfl

theorem invalidBalanceMessage_eq (n : Nat) (b : String) :
    invalidBalanceMessage n b =
      "Row " ++ toString n ++ ": " ++ ("Invalid balance '" ++ b ++ "' - must be numeric") := by
  unfold invalidBalanceMessage
  simp only [String.append_assoc]
  rfl

theorem databaseErrorMessage_eq (n : Nat) (msg : String) :
    databaseErrorMessage n msg =
      "Row " ++ toString n ++ ": " ++ ("Database error - " ++ msg) := by
  unfold databaseErrorMessage
  simp only [String.append_assoc]
  rfl

theorem validateRow_errors_prefix (row : Row) (n : Nat) :
    ∀ msg ∈ (validateRow row n).errors, ∃ rest, msg = "Row " ++ toString n ++ ": " ++ rest := by
  intro msg hmsg
  unfold validateRow at hmsg
  cases hk : row.account_number with
  | none =>
    simp only [hk, List.mem_singleton] at hmsg
    exact ⟨_, hmsg.trans (missingAccountNumberMessage_eq n)⟩
  | some acct =>
    rw [hk] at hmsg
    by_cases hb : acct = "" ∨ jsTrim acct = ""
    · simp only [hb, if_true, List.mem_singleton] at hmsg
      exact ⟨_, hmsg.trans (missingAccountNumberMessage_eq n)⟩
    · simp only [hb, if_false] at hmsg
      cases hp : parseBalance row.balance with
      | none =>
        simp only [hp, List.mem_singleton] at hmsg
        exact ⟨_, hmsg.trans (invalidBalanceMessage_eq n _)⟩
      | some balance => simp [hp] at hmsg

theorem onData_errors (fs : FsOracle) (clock : Nat → String) (run : Run) (row : Row) :
    (onData fs clock run row).stats.errors = run.stats.errors ++ rowMessages fs clock run row ∧
      ∀ msg ∈ rowMessages fs clock run row,
        ∃ rest, msg = "Row " ++ toString (run.stats.total + 2) ++ ": " ++ rest := by
  unfold rowMessages
  cases hx : normalizedData row with
  | none =>
    rw [onData_invalid fs clock run hx]
    simp only [List.drop_left]
    exact ⟨trivial, validateRow_errors_prefix row _⟩
  | some a =>
    rw [onData_valid fs clock run hx]
    rcases hu : upsertAccount fs (clock (run.stats.total + 1 + 1)) run.store a with ⟨store, e⟩
    cases e with
    | none => by_cases hd : a.account_number ∈ run.seenAccounts <;> simp [hd]
    | some m =>
      simp only [List.drop_left, List.mem_singleton]
      exact ⟨trivial, fun msg hmsg => ⟨_, hmsg.trans (databaseErrorMessage_eq _ m)⟩⟩

theorem processRows_errors_prefix (fs : FsOracle) (clock : Nat → String) (run : Run)
    (rows : List Row) :
    ∃ later, (processRows fs clock run rows).stats.errors = run.stats.errors ++ later := by
  induction rows using List.reverseRecOn with
  | nil => exact ⟨[], by simp [processRows]⟩
  | append_singleton xs x ih =>
    obtain ⟨later, hl⟩ := ih
    rw [processRows_concat, (onData_errors fs clock _ x).1, hl, List.append_assoc]
    exact ⟨_, rfl⟩

theorem processRows_errors_origin (fs : FsOracle) (clock : Nat → String) (run : Run)
    (rows : List Row) :
    ∀ msg ∈ (processRows fs clock run rows).stats.errors,
      msg ∈ run.stats.errors ∨
      ∃ pre row post, rows = pre ++ row :: post ∧
        msg ∈ rowMessages fs clock (processRows fs clock run pre) row := by
  induction rows using List.reverseRecOn with
  | nil => exact fun msg hmsg => Or.inl hmsg
  | append_singleton xs x ih =>
    intro msg hmsg
    rw [processRows_concat, (onData_errors fs clock _ x).1, List.mem_append] at hmsg
    rcases hmsg with hold | hnew
    · rcases ih msg hold with h0 | ⟨pre, row, post, hxs, hm⟩
      · exact Or.inl h0
      · exact Or.inr ⟨pre, row, post ++ [x], by simp [hxs], hm⟩
    · exact Or.inr ⟨xs, x, [], rfl, hnew⟩

/-! ## `ingestCSV` as a whole -/

theorem ingestCSV_store (fs : FsOracle) (clock : Nat → String) (m : DbModule)
    (rows : List Row) (h : (initDb fs m).2 = none) :
    (ingestCSV fs clock m rows).1 =
      (saveDb fs (processRows fs clock (startRun (initDb fs m).1) rows).store).1 := by
  unfold ingestCSV
  rcases hi : initDb fs m with ⟨m1, e⟩
  rw [hi] at h
  simp only at h
  subst h
  simp only
  rcases hs : saveDb fs (processRows fs clock (startRun m1) rows).store with ⟨m2, e2⟩
  cases e2 <;> rfl

theorem ingestCSV_result (fs : FsOracle) (clock : Nat → String) (m : DbModule)
    (rows : List Row) (h : (initDb fs m).2 = none) :
    (ingestCSV fs clock m rows).2 =
      match (saveDb fs (processRows fs clock (startRun (initDb fs m).1) rows).store).2 with
      | none => Except.ok (processRows fs clock (startRun (initDb fs m).1) rows).stats
      | some msg => Except.error msg := by
  unfold ingestCSV
  rcases hi : initDb fs m with ⟨m1, e⟩
  rw [hi] at h
  simp only at h
  subst h
  simp only
  rcases hs : saveDb fs (processRows fs clock (startRun m1) rows).store with ⟨m2, e2⟩
  cases e2 <;> rfl

theorem ingestCSV_stats_of_ok (fs : FsOracle) (clock : Nat → String) (m : DbModule)
    (rows : List Row) {stats : Stats} (h : (ingestCSV fs clock m rows).2 = Except.ok stats) :
    (initDb fs m).2 = none ∧
      stats = (processRows fs clock (startRun (initDb fs m).1) rows).stats := by
  unfold ingestCSV at h
  rcases hi : initDb fs m with ⟨m1, e⟩
  rw [hi] at h
  cases e with
  | some msg => simp at h
  | none =>
    simp only at h
    rcases hs : saveDb fs (processRows fs clock (startRun m1) rows).store with ⟨m2, e2⟩
    rw [hs] at h
    cases e2 with
    | some msg => simp at h
    | none =>
      simp only [Except.ok.injEq] at h
      exact ⟨rfl, h.symm⟩

/-- After a run whose initialisation succeeds, the table is the one left by the `data`
handler: lookups, keys and number of saves. -/
theorem ingestCSV_table (fs : FsOracle) (clock : Nat → String) (m : DbModule)
    (rows : List Row) (h : (initDb fs m).2 = none) :
    ∃ t0 t', (initDb fs m).1.db = some t0 ∧ (ingestCSV fs clock m rows).1.db = some t' ∧
      (∀ k, selectByNumber t' k = (lastValid rows k).or (selectByNumber t0 k)) ∧
      tableKeys t' = (validKeys rows).foldl setAdd (tableKeys t0) ∧
      (ingestCSV fs clock m rows).1.writes =
        (initDb fs m).1.writes + (validAccounts rows).length + 1 := by
  obtain ⟨t0, h0⟩ := initDb_db_isSome fs m
  have hstart : (startRun (initDb fs m).1).store.db = some t0 := h0
  obtain ⟨t', hdb, hsel, hkeys, hw⟩ := processRows_table fs clock hstart rows
  refine ⟨t0, t', h0, ?_, hsel, hkeys, ?_⟩
  · rw [ingestCSV_store fs clock m rows h, saveDb_db, hdb]
  · rw [ingestCSV_store fs clock m rows h, saveDb_writes fs hdb, hw]
    rfl

theorem lastValid_of_mem (rows : List Row) (k : String) (hk : k ∈ validKeys rows) :
    ∃ pre row post a, rows = pre ++ row :: post ∧ normalizedData row = some a ∧
      a.account_number = k ∧
      (∀ r ∈ post, ∀ b, normalizedData r = some b → b.account_number ≠ k) ∧
      lastValid rows k = some a := by
  induction rows using List.reverseRecOn with
  | nil => simp [validKeys, validAccounts] at hk
  | append_singleton xs x ih =>
    by_cases hx : ∃ a, normalizedData x = some a ∧ a.account_number = k
    · obtain ⟨a, ha, hak⟩ := hx
      refine ⟨xs, x, [], a, rfl, ha, hak, by simp, ?_⟩
      rw [lastValid_concat, ha]
      simp [Option.filter, hak]
    · have hmem : k ∈ validKeys xs := by
        rw [validKeys_append, List.mem_append] at hk
        rcases hk with h | h
        · exact h
        · exfalso
          apply hx
          simp only [validKeys, validAccounts_singleton, List.mem_map, Option.mem_toList,
            Option.mem_def] at h
          exact h
      obtain ⟨pre, row, post, a, hxs, ha, hak, hpost, hlast⟩ := ih hmem
      refine ⟨pre, row, post ++ [x], a, by simp [hxs], ha, hak, ?_, ?_⟩
      · intro r hr b hb
        rw [List.mem_append, List.mem_singleton] at hr
        rcases hr with hr | hr
        · exact hpost r hr b hb
        · intro hc
          exact hx ⟨b, hr ▸ hb, hc⟩
      · rw [lastValid_concat, hlast]
        cases hn : normalizedData x with
        | none => simp [Option.filter]
        | some b =>
          have hbk : b.account_number ≠ k := fun hc => hx ⟨b, hn, hc⟩
          simp [Option.filter, hbk]

theorem upsertAll_concat (fs : FsOracle) (m : DbModule) (calls : List (String × Account))
    (c : String × Account) :
    upsertAll fs m (calls ++ [c]) = (upsertAccount fs c.1 (upsertAll fs m calls) c.2).1 := by
  simp [upsertAll, List.foldl_append]

theorem upsertAll_table (fs : FsOracle) {m : DbModule} {t : List AccountRecord}
    (h : m.db = some t) (calls : List (String × Account)) :
    ∃ t', (upsertAll fs m calls).db = some t' ∧
      tableKeys t' =
        (calls.map (fun c => c.2.account_number)).foldl setAdd (tableKeys t) := by
  induction calls using List.reverseRecOn with
  | nil => exact ⟨t, h, rfl⟩
  | append_singleton cs c ih =>
    obtain ⟨t1, hdb, hkeys⟩ := ih
    refine ⟨_, by rw [upsertAll_concat]; exact upsertAccount_db fs c.1 c.2 hdb, ?_⟩
    rw [setAdd_eq_upsert_keys, hkeys]
    simp [List.foldl_append]

theorem ingestAll_concat (m : DbModule)
    (runs : List (FsOracle × (Nat → String) × List Row))
    (r : FsOracle × (Nat → String) × List Row) :
    ingestAll m (runs ++ [r]) = (ingestCSV r.1 r.2.1 (ingestAll m runs) r.2.2).1 := by
  simp [ingestAll, List.foldl_append]

theorem ingestAll_table {m : DbModule} {t : List AccountRecord} (h : m.db = some t)
    (runs : List (FsOracle × (Nat → String) × List Row)) :
    ∃ t', (ingestAll m runs).db = some t' ∧
      tableKeys t' =
        (runs.flatMap (fun r => validKeys r.2.2)).foldl setAdd (tableKeys t) := by
  induction runs using List.reverseRecOn with
  | nil => exact ⟨t, h, rfl⟩
  | append_singleton rs r ih =>
    obtain ⟨t1, hdb, hkeys⟩ := ih
    have hinit : initDb r.1 (ingestAll m rs) = (ingestAll m rs, none) := initDb_of_some r.1 hdb
    have hinit2 : (initDb r.1 (ingestAll m rs)).2 = none := by rw [hinit]
    obtain ⟨t0, t', h0, hdb', _, hkeys', _⟩ :=
      ingestCSV_table r.1 r.2.1 (ingestAll m rs) r.2.2 hinit2
    rw [hinit] at h0
    have ht0 : t0 = t1 := Option.some.inj (h0.symm.trans hdb)
    subst ht0
    refine ⟨t', by rw [ingestAll_concat]; exact hdb', ?_⟩
    rw [hkeys', hkeys]
    simp [List.flatMap, List.foldl_append]

/-! ## The claims -/

/-- C2: a present balance that is not a finite decimal number must be rejected, never coerced.
`validateRow` reads the balance with `parseFloat` and rejects only `NaN`, so a literal with a
numeric prefix is accepted with the value of the prefix and `Infinity` is accepted as is:
"12abc" is stored as 12, "1,234" as 1, "0x10" as 0; only a literal without numeric prefix,
such as "abc", is rejected with a message citing it. -/
theorem validateRow_accepts_malformed_balance :
    isFiniteDecimal "12abc" = false ∧
    validateRow (rowOf "A1" "12abc") 2 =
      { valid := true, errors := [], data := some (accountOf "A1" 12) } ∧
    isFiniteDecimal "1,234" = false ∧
    validateRow (rowOf "A1" "1,234") 2 =
      { valid := true, errors := [], data := some (accountOf "A1" 1) } ∧
    isFiniteDecimal "0x10" = false ∧
    validateRow (rowOf "A1" "0x10") 2 =
      { valid := true, errors := [], data := some (accountOf "A1" 0) } ∧
    isFiniteDecimal "Infinity" = false ∧
    validateRow (rowOf "A1" "Infinity") 2 =
      { valid := true, errors := [],
        data := some { accountOf "A1" 0 with balance := JSNumber.infinity false } } ∧
    isFiniteDecimal "abc" = false ∧
    validateRow (rowOf "A1" "abc") 2 =
      { valid := false, errors := ["Row 2: Invalid balance 'abc' - must be numeric"],
        data := none } := by
  refine ⟨by decide, by decide, by decide, by decide, by decide, by decide, by decide,
    by decide, by decide, by decide⟩

/-- C5: an empty lookup key must be answered with 400 by both lookup forms and never reach
the store.  The path handler does so, but the query handler tests the key before trimming
it: for the key " " it queries the store with the empty string and answers 404. -/
theorem getAccountByQuery_blank_key :
    getAccountByPath emptyStore (some " ") =
      { status := 400,
        body := Body.error "Bad Request" "Account number is required" none,
        storeQueries := [] } ∧
    getAccountByQuery emptyStore (QueryValue.string " ") =
      { status := 404,
        body := Body.error "Not Found" "Account with number ' ' does not exist" none,
        storeQueries := [""] } := by
  refine ⟨by decide, by decide⟩

/-- C7, as stated, fails: a balance made of white space only is not defaulted to 0; the row
is rejected with a message citing the balance. -/
theorem validateRow_blank_balance_rejected :
    jsTrim "A1" ≠ "" ∧ jsTrim "   " = "" ∧
    validateRow (rowOf "A1" "   ") 2 =
      { valid := false, errors := ["Row 2: Invalid balance '   ' - must be numeric"],
        data := none } := by
  refine ⟨by decide, by decide, by decide⟩

/-- C7, amended: for every row with a non-blank account number whose balance is absent or is
the empty string, `validateRow` returns a valid result without errors whose balance is 0. -/
theorem validateRow_default_balance (row : Row) (n : Nat) (acct : String)
    (hkey : row.account_number = some acct) (hacct : jsTrim acct ≠ "")
    (hbal : row.balance = none ∨ row.balance = some "") :
    validateRow row n =
      { valid := true,
        errors := [],
        data := some
          { account_number := jsTrim acct,
            debtor_name := trimOrNull row.debtor_name,
            phone_number := trimOrNull row.phone_number,
            balance := JSNumber.finite 0,
            status := trimOrNull row.status,
            client_name := trimOrNull row.client_name } } := by
  have hne : acct ≠ "" := by
    intro hc
    apply hacct
    rw [hc]
    decide
  unfold validateRow
  rw [hkey]
  have hb : parseBalance row.balance = some (JSNumber.finite 0) := by
    rcases hbal with h | h <;> simp [h, parseBalance]
  simp [hne, hacct, hb]

theorem validateRow_default_balance_witness :
    jsTrim " A1 " ≠ "" ∧
    validateRow { account_number := some " A1 ", debtor_name := some " Ann " } 2 =
      { valid := true, errors := [],
        data := some { accountOf "A1" 0 with debtor_name := some "Ann" } } ∧
    validateRow { account_number := some "B2", balance := some "" } 3 =
      { valid := true, errors := [], data := some (accountOf "B2" 0) } :=
  ⟨by decide,
   (validateRow_default_balance { account_number := some " A1 ", debtor_name := some " Ann " }
      2 " A1 " rfl (by decide) (Or.inl rfl)).trans (by decide),
   (validateRow_default_balance { account_number := some "B2", balance := some "" }
      3 "B2" rfl (by decide) (Or.inr rfl)).trans (by decide)⟩

/-- C1: last occurrence wins, with full replacement.  After `ingestCSV` has processed the rows
of a source, every key that is the trimmed account number of a valid row has a last valid
row in the source, and `findAccountByNumber` returns for that key exactly the record
`validateRow` built for this last row, whatever earlier rows or the prior store held. -/
theorem ingestCSV_last_occurrence_wins (fs : FsOracle) (clock : Nat → String) (m : DbModule)
    (rows : List Row) (k : String) (hinit : (initDb fs m).2 = none)
    (hk : k ∈ validKeys rows) :
    ∃ pre row post a, rows = pre ++ row :: post ∧
      (∀ n, (validateRow row n).data = some a) ∧ a.account_number = k ∧
      (∀ r ∈ post, ∀ n b, (validateRow r n).data = some b → b.account_number ≠ k) ∧
      findAccountByNumber (ingestCSV fs clock m rows).1 k = Except.ok (some a) := by
  obtain ⟨pre, row, post, a, hrows, ha, hak, hpost, hlast⟩ := lastValid_of_mem rows k hk
  obtain ⟨t0, t', _, hdb, hsel, _, _⟩ := ingestCSV_table fs clock m rows hinit
  refine ⟨pre, row, post, a, hrows, fun n => (validateRow_data row n).trans ha, hak, ?_, ?_⟩
  · intro r hr n b hb
    exact hpost r hr b ((validateRow_data r n).symm.trans hb)
  · unfold findAccountByNumber
    rw [hdb]
    simp [hsel k, hlast]

theorem ingestCSV_last_occurrence_wins_witness :
    (initDb fsOk emptyStore).2 = none ∧
    "A1" ∈ validKeys [rowOf "A1" "10", rowOf " A1" "20"] ∧
    (∃ pre row post a, [rowOf "A1" "10", rowOf " A1" "20"] = pre ++ row :: post ∧
      (∀ n, (validateRow row n).data = some a) ∧ a.account_number = "A1" ∧
      (∀ r ∈ post, ∀ n b, (validateRow r n).data = some b → b.account_number ≠ "A1") ∧
      findAccountByNumber
        (ingestCSV fsOk (fun _ => "t") emptyStore [rowOf "A1" "10", rowOf " A1" "20"]).1 "A1"
        = Except.ok (some a)) ∧
    findAccountByNumber
      (ingestCSV fsOk (fun _ => "t") emptyStore [rowOf "A1" "10", rowOf " A1" "20"]).1 "A1"
      = Except.ok (some (accountOf "A1" 20)) :=
  ⟨by decide, by decide,
   ingestCSV_last_occurrence_wins fsOk (fun _ => "t") emptyStore
     [rowOf "A1" "10", rowOf " A1" "20"] "A1" (by decide) (by decide),
   by decide⟩

/-- C3: re-ingestion is idempotent.  Running `ingestCSV` on a source a second time, right
after a first run whose initialisation succeeded, leaves `getAccountCount()` and the result
of `findAccountByNumber` for every key as they were after the first run; this holds for
every source, in particular for one in which every row is valid. -/
theorem ingestCSV_idempotent (fs fs2 : FsOracle) (clock clock2 : Nat → String) (m : DbModule)
    (rows : List Row) (hinit : (initDb fs m).2 = none) :
    (∃ n, getAccountCount (ingestCSV fs clock m rows).1 = Except.ok n ∧
      getAccountCount (ingestCSV fs2 clock2 (ingestCSV fs clock m rows).1 rows).1
        = Except.ok n) ∧
    ∀ k, ∃ r, findAccountByNumber (ingestCSV fs clock m rows).1 k = Except.ok r ∧
      findAccountByNumber (ingestCSV fs2 clock2 (ingestCSV fs clock m rows).1 rows).1 k
        = Except.ok r := by
  obtain ⟨t0, t1, _, hdb1, hsel1, hkeys1, _⟩ := ingestCSV_table fs clock m rows hinit
  have hinit2 : initDb fs2 (ingestCSV fs clock m rows).1 = ((ingestCSV fs clock m rows).1, none) :=
    initDb_of_some fs2 hdb1
  have hinit2n : (initDb fs2 (ingestCSV fs clock m rows).1).2 = none := by rw [hinit2]
  obtain ⟨t1b, t2, h1b, hdb2, hsel2, hkeys2, _⟩ :=
    ingestCSV_table fs2 clock2 (ingestCSV fs clock m rows).1 rows hinit2n
  rw [hinit2] at h1b
  have ht : t1b = t1 := Option.some.inj (h1b.symm.trans hdb1)
  subst ht
  have hsub : ∀ x ∈ validKeys rows, x ∈ tableKeys t1b := by
    intro x hx
    rw [hkeys1, mem_foldl_setAdd]
    exact Or.inr hx
  rw [foldl_setAdd_of_subset (validKeys rows) hsub] at hkeys2
  constructor
  · refine ⟨t1b.length, by simp [getAccountCount, hdb1], ?_⟩
    have hlen : t2.length = t1b.length := by
      have := congrArg List.length hkeys2
      simpa [tableKeys] using this
    simp [getAccountCount, hdb2, hlen]
  · intro k
    refine ⟨selectByNumber t1b k, by simp [findAccountByNumber, hdb1], ?_⟩
    simp only [findAccountByNumber, hdb2, hsel2 k, hsel1 k]
    cases hl : lastValid rows k <;> simp

theorem ingestCSV_idempotent_witness :
    (initDb fsOk { db := none, file := none, writes := 0 }).2 = none ∧
    ((∃ n, getAccountCount (ingestCSV fsOk (fun _ => "t1")
          { db := none, file := none, writes := 0 } [rowOf "A1" "10", rowOf "B2" "5"]).1
        = Except.ok n ∧
      getAccountCount (ingestCSV fsOk (fun _ => "t2")
          (ingestCSV fsOk (fun _ => "t1") { db := none, file := none, writes := 0 }
            [rowOf "A1" "10", rowOf "B2" "5"]).1 [rowOf "A1" "10", rowOf "B2" "5"]).1
        = Except.ok n) ∧
    ∀ k, ∃ r, findAccountByNumber (ingestCSV fsOk (fun _ => "t1")
          { db := none, file := none, writes := 0 } [rowOf "A1" "10", rowOf "B2" "5"]).1 k
        = Except.ok r ∧
      findAccountByNumber (ingestCSV fsOk (fun _ => "t2")
          (ingestCSV fsOk (fun _ => "t1") { db := none, file := none, writes := 0 }
            [rowOf "A1" "10", rowOf "B2" "5"]).1 [rowOf "A1" "10", rowOf "B2" "5"]).1 k
        = Except.ok r) :=
  ⟨by decide,
   ingestCSV_idempotent fsOk fsOk (fun _ => "t1") (fun _ => "t2")
     { db := none, file := none, writes := 0 } [rowOf "A1" "10", rowOf "B2" "5"] (by decide)⟩

/-- Counters of a whole run when no save fails. -/
theorem ingestCSV_counters (fs : FsOracle) (clock : Nat → String) (m : DbModule)
    (rows : List Row) (hfs : ∀ n, fs n = none) :
    ∃ stats, (ingestCSV fs clock m rows).2 = Except.ok stats ∧
      stats.total = rows.length ∧
      stats.skipped = rows.countP (fun r => (validateRow r 0).valid = false) ∧
      stats.inserted = (validKeys rows).dedup.length ∧
      stats.updated = (validAccounts rows).length - (validKeys rows).dedup.length := by
  have hinit : (initDb fs m).2 = none := by
    unfold initDb
    cases hdb : m.db with
    | some t => rfl
    | none =>
      simp only
      rw [saveDb_thrown fs (t := m.file.getD []) rfl]
      exact hfs _
  obtain ⟨t0, h0⟩ := initDb_db_isSome fs m
  have hstart : (startRun (initDb fs m).1).store.db = some t0 := h0
  obtain ⟨t', hdb, _, _, _⟩ := processRows_table fs clock hstart rows
  obtain ⟨h1, h2, h3⟩ := processRows_stats fs clock hstart hfs rows
  have hres := ingestCSV_result fs clock m rows hinit
  rw [saveDb_thrown fs hdb, hfs] at hres
  have z1 : (startRun (initDb fs m).1).stats.skipped = 0 := rfl
  have z2 : (startRun (initDb fs m).1).stats.inserted = 0 := rfl
  have z3 : (startRun (initDb fs m).1).stats.updated = 0 := rfl
  have z4 : (startRun (initDb fs m).1).seenAccounts.length = 0 := rfl
  have z5 : (startRun (initDb fs m).1).stats.total = 0 := rfl
  have hseen : (processRows fs clock (startRun (initDb fs m).1) rows).seenAccounts.length =
      (validKeys rows).dedup.length := by
    rw [processRows_seenAccounts]
    exact length_foldl_setAdd_nil _
  have hc := length_validAccounts rows
  have hcount : rows.countP (fun r => decide ((validateRow r 0).valid = false)) =
      rows.countP (fun r => (normalizedData r).isNone) := by
    apply List.countP_congr
    intro r _
    rw [validateRow_valid]
    cases normalizedData r <;> simp
  refine ⟨_, hres, ?_, ?_, ?_, ?_⟩
  · rw [processRows_total, z5]
    omega
  · rw [hcount]
    omega
  · omega
  · omega


/-- C4: run-local accounting.  When no save fails, `ingestCSV` resolves with counters that are
functions of the source alone, whatever the store held before: `total` is the number of
rows, `skipped` the number of rows `validateRow` rejects, `inserted` the number of distinct
trimmed account numbers among the valid rows, and `updated` the number of valid rows minus
`inserted`.  In particular, whatever keys the store already holds, a source made of a row
that `validateRow` rejects between two valid rows with different keys gives `skipped = 1`,
`inserted = 2` and `updated = 0`. -/
theorem ingestCSV_run_local_accounting (fs : FsOracle) (clock : Nat → String) (m : DbModule)
    (hfs : ∀ n, fs n = none) :
    (∀ rows : List Row, ∃ stats, (ingestCSV fs clock m rows).2 = Except.ok stats ∧
      stats.total = rows.length ∧
      stats.skipped = rows.countP (fun r => (validateRow r 0).valid = false) ∧
      stats.inserted = (validKeys rows).dedup.length ∧
      stats.updated = (validAccounts rows).length - (validKeys rows).dedup.length) ∧
    (∀ (first bad last : Row) (a b : Account),
      (validateRow first 2).data = some a → (validateRow bad 3).valid = false →
      (validateRow last 4).data = some b → a.account_number ≠ b.account_number →
      ∃ stats, (ingestCSV fs clock m [first, bad, last]).2 = Except.ok stats ∧
        stats.total = 3 ∧ stats.skipped = 1 ∧ stats.inserted = 2 ∧ stats.updated = 0) := by
  refine ⟨fun rows => ingestCSV_counters fs clock m rows hfs, ?_⟩
  intro first bad last a b ha hbad hb hne
  obtain ⟨stats, hres, h1, h2, h3, h4⟩ := ingestCSV_counters fs clock m [first, bad, last] hfs
  have ha1 : normalizedData first = some a := (validateRow_data first 2).symm.trans ha
  have hb1 : normalizedData last = some b := (validateRow_data last 4).symm.trans hb
  have hbad1 : normalizedData bad = none := by
    rw [validateRow_valid] at hbad
    cases hn : normalizedData bad with
    | none => rfl
    | some c => simp [hn] at hbad
  have hacc : validAccounts [first, bad, last] = [a, b] := by
    simp [validAccounts, List.filterMap_cons, ha1, hb1, hbad1]
  have hkeys : (validKeys [first, bad, last]).dedup.length = 2 := by
    have hnodup : [a.account_number, b.account_number].Nodup := by simp [hne]
    simp only [validKeys, hacc, List.map_cons, List.map_nil]
    rw [hnodup.dedup]
    rfl
  have hskip : [first, bad, last].countP (fun r => decide ((validateRow r 0).valid = false)) = 1 := by
    simp [List.countP_cons, validateRow_valid, ha1, hb1, hbad1]
  refine ⟨stats, hres, h1, ?_, ?_, ?_⟩
  · rw [h2, hskip]
  · rw [h3, hkeys]
  · rw [h4, hkeys, hacc]
    rfl

theorem ingestCSV_run_local_accounting_witness :
    (∀ n, fsOk n = none) ∧
    (∃ stats, (ingestCSV fsOk (fun _ => "t") storeWithA1
        [rowOf "A1" "10", rowOf "B2" "abc", rowOf "C3" "5"]).2 = Except.ok stats ∧
      stats.total = 3 ∧ stats.skipped = 1 ∧ stats.inserted = 2 ∧ stats.updated = 0) ∧
    (ingestCSV fsOk (fun _ => "t") storeWithA1
        [rowOf "A1" "10", rowOf "B2" "abc", rowOf "C3" "5"]).2 =
      Except.ok { total := 3, inserted := 2, updated := 0, skipped := 1,
                  errors := ["Row 3: Invalid balance 'abc' - must be numeric"] } ∧
    findAccountByNumber storeWithA1 "A1" =
      Except.ok (some { accountOf "A1" 7 with debtor_name := some "Ann" }) :=
  ⟨fun _ => rfl,
   (ingestCSV_run_local_accounting fsOk (fun _ => "t") storeWithA1 (fun _ => rfl)).2
     (rowOf "A1" "10") (rowOf "B2" "abc") (rowOf "C3" "5") (accountOf "A1" 10) (accountOf "C3" 5)
     (by decide) (by decide) (by decide) (by decide),
   by decide, by decide⟩

/-- C6, as stated, fails: on an initialised store, a run over a source of one valid row calls
`saveDb` twice, once inside `upsertAccount` while the row is processed and once in the `end`
handler; over two valid rows the first save happens before the second row is scanned. -/
theorem ingestCSV_saves_more_than_once :
    emptyStore.db = some [] ∧
    (ingestCSV fsOk (fun _ => "t") emptyStore [rowOf "A1" "10"]).1.writes
      ≠ emptyStore.writes + 1 ∧
    (ingestCSV fsOk (fun _ => "t") emptyStore [rowOf "A1" "10"]).1.writes
      = emptyStore.writes + 2 ∧
    (processRows fsOk (fun _ => "t") (startRun emptyStore) [rowOf "A1" "10"]).store.writes
      = emptyStore.writes + 1 ∧
    (ingestCSV fsOk (fun _ => "t") emptyStore [rowOf "A1" "10", rowOf "B2" "5"]).1.writes
      = emptyStore.writes + 3 := by
  refine ⟨rfl, by decide, by decide, by decide, by decide⟩

/-- C6, amended: during one `ingestCSV` run on an initialised store, `saveDb` is called once by
every `upsertAccount`, that is once for each row that passes validation, at the time the row
is processed, and once more by the `end` handler after the last row: after any prefix of
the source the number of saves is the number of valid rows of the prefix, and over the whole
run it is the number of valid rows of the source plus one. -/
theorem ingestCSV_save_count (fs : FsOracle) (clock : Nat → String) (m : DbModule)
    (t : List AccountRecord) (rows : List Row) (hdb : m.db = some t) :
    (∀ pre post, rows = pre ++ post →
      (processRows fs clock (startRun m) pre).store.writes =
        m.writes + (validAccounts pre).length) ∧
    (ingestCSV fs clock m rows).1.writes = m.writes + (validAccounts rows).length + 1 := by
  constructor
  · intro pre post _
    have hstart : (startRun m).store.db = some t := hdb
    obtain ⟨_, _, _, _, hw⟩ := processRows_table fs clock hstart pre
    exact hw
  · have hinit : initDb fs m = (m, none) := initDb_of_some fs hdb
    have hinit2 : (initDb fs m).2 = none := by rw [hinit]
    obtain ⟨_, _, _, _, _, _, hw⟩ := ingestCSV_table fs clock m rows hinit2
    rw [hinit] at hw
    exact hw

theorem ingestCSV_save_count_witness :
    storeWithA1.db = some (storeWithA1.db.getD []) ∧
    (∀ pre post, [rowOf "A1" "10", rowOf "B2" "abc", rowOf "C3" "5"] = pre ++ post →
      (processRows fsOk (fun _ => "t") (startRun storeWithA1) pre).store.writes =
        storeWithA1.writes + (validAccounts pre).length) ∧
    (ingestCSV fsOk (fun _ => "t") storeWithA1
        [rowOf "A1" "10", rowOf "B2" "abc", rowOf "C3" "5"]).1.writes =
      storeWithA1.writes +
        (validAccounts [rowOf "A1" "10", rowOf "B2" "abc", rowOf "C3" "5"]).length + 1 :=
  ⟨rfl,
   ingestCSV_save_count fsOk (fun _ => "t") storeWithA1 (storeWithA1.db.getD [])
     [rowOf "A1" "10", rowOf "B2" "abc", rowOf "C3" "5"] rfl⟩

/-- C8: uniqueness.  Starting from an empty `accounts` table, after any sequence of
`upsertAccount` calls, and hence after any sequence of `ingestCSV` runs over any sources, no
two rows of the table have the same `account_number`, and `getAccountCount()` is the number
of distinct `account_number` values that have been upserted. -/
theorem upsertAccount_uniqueness (m : DbModule) (hm : m.db = some []) :
    (∀ (fs : FsOracle) (calls : List (String × Account)),
      ∃ t, (upsertAll fs m calls).db = some t ∧
        (t.map (fun r => r.account_number)).Nodup ∧
        getAccountCount (upsertAll fs m calls) =
          Except.ok (calls.map (fun c => c.2.account_number)).dedup.length) ∧
    (∀ runs : List (FsOracle × (Nat → String) × List Row),
      ∃ t, (ingestAll m runs).db = some t ∧
        (t.map (fun r => r.account_number)).Nodup ∧
        getAccountCount (ingestAll m runs) =
          Except.ok (runs.flatMap (fun r => validKeys r.2.2)).dedup.length) := by
  constructor
  · intro fs calls
    obtain ⟨t, hdb, hkeys⟩ := upsertAll_table fs hm calls
    have hk : tableKeys t = (calls.map (fun c => c.2.account_number)).foldl setAdd [] := hkeys
    refine ⟨t, hdb, ?_, ?_⟩
    · show (tableKeys t).Nodup
      rw [hk]
      exact nodup_foldl_setAdd _ List.nodup_nil
    · have hlen : t.length = (tableKeys t).length := by simp [tableKeys]
      simp only [getAccountCount, hdb]
      rw [hlen, hk, length_foldl_setAdd_nil]
  · intro runs
    obtain ⟨t, hdb, hkeys⟩ := ingestAll_table hm runs
    have hk : tableKeys t = (runs.flatMap (fun r => validKeys r.2.2)).foldl setAdd [] := hkeys
    refine ⟨t, hdb, ?_, ?_⟩
    · show (tableKeys t).Nodup
      rw [hk]
      exact nodup_foldl_setAdd _ List.nodup_nil
    · have hlen : t.length = (tableKeys t).length := by simp [tableKeys]
      simp only [getAccountCount, hdb]
      rw [hlen, hk, length_foldl_setAdd_nil]

theorem upsertAccount_uniqueness_witness :
    emptyStore.db = some [] ∧
    getAccountCount (upsertAll fsOk emptyStore
      [("t1", accountOf "A1" 10), ("t2", accountOf "B2" 5), ("t3", accountOf "A1" 20)])
      = Except.ok 2 :=
  ⟨rfl,
   by
    obtain ⟨_, _, _, hc⟩ := (upsertAccount_uniqueness emptyStore rfl).1 fsOk
      [("t1", accountOf "A1" 10), ("t2", accountOf "B2" 5), ("t3", accountOf "A1" 20)]
    rw [hc]
    decide⟩

/-- C9: optional fields are never stored as the empty string.  In the record of an accepted
row, each of `debtor_name`, `phone_number`, `status` and `client_name` is the trimmed input
when that is a non-empty string and `null` when the input is absent or empty after
trimming, so none is the empty string; and after `upsertAccount` of the record on an
initialised store, `findAccountByNumber` returns the record with these same values. -/
theorem validateRow_optional_fields (row : Row) (n : Nat) (a : Account)
    (h : (validateRow row n).data = some a) :
    (TrimmedOrNull row.debtor_name a.debtor_name ∧
      TrimmedOrNull row.phone_number a.phone_number ∧
      TrimmedOrNull row.status a.status ∧
      TrimmedOrNull row.client_name a.client_name) ∧
    (a.debtor_name ≠ some "" ∧ a.phone_number ≠ some "" ∧ a.status ≠ some "" ∧
      a.client_name ≠ some "") ∧
    ∀ (fs : FsOracle) (now : String) (m : DbModule) (t : List AccountRecord),
      m.db = some t →
      findAccountByNumber (upsertAccount fs now m a).1 a.account_number
        = Except.ok (some a) := by
  have hn : normalizedData row = some a := (validateRow_data row n).symm.trans h
  obtain ⟨acct, balance, _, _, _, ha⟩ := normalizedData_eq_some hn
  refine ⟨?_, ?_, ?_⟩
  · subst ha
    exact ⟨trimOrNull_spec _, trimOrNull_spec _, trimOrNull_spec _, trimOrNull_spec _⟩
  · subst ha
    exact ⟨trimOrNull_ne_empty _, trimOrNull_ne_empty _, trimOrNull_ne_empty _,
      trimOrNull_ne_empty _⟩
  · intro fs now m t hdb
    unfold findAccountByNumber
    rw [upsertAccount_db fs now a hdb]
    simp [selectByNumber_upsertTable, boundValues_of_valid hn]

theorem validateRow_optional_fields_witness :
    (validateRow { account_number := some "A1", debtor_name := some "  Ann ",
                   phone_number := some "   ", status := some "" } 2).data =
      some { accountOf "A1" 0 with debtor_name := some "Ann" } ∧
    findAccountByNumber
      (upsertAccount fsOk "t" storeWithA1 { accountOf "A1" 0 with debtor_name := some "Ann" }).1
      "A1" = Except.ok (some { accountOf "A1" 0 with debtor_name := some "Ann" }) :=
  ⟨by decide,
   (validateRow_optional_fields
      { account_number := some "A1", debtor_name := some "  Ann ",
        phone_number := some "   ", status := some "" } 2
      { accountOf "A1" 0 with debtor_name := some "Ann" } (by decide)).2.2
      fsOk "t" storeWithA1 (storeWithA1.db.getD []) rfl⟩

theorem validateRow_missing_key (row : Row) (n : Nat)
    (hkey : row.account_number = none ∨ ∃ s, row.account_number = some s ∧ jsTrim s = "") :
    validateRow row n =
      { valid := false, errors := [missingAccountNumberMessage n], data := none } := by
  unfold validateRow
  rcases hkey with h | ⟨s, h, hs⟩
  · rw [h]
  · rw [h]
    simp [hs]

/-- C10: a row without account number is rejected, reported with its ordinal and never
persisted.  For a row at 1-based position `pre.length + 1` whose account number is absent or
empty after trimming, `validateRow` returns the single message naming row
`pre.length + 2` and the field `account_number`, whatever the balance; the `data` handler
leaves the store and the set of seen keys untouched (an `upsertAccount` call would have
changed the store), adds one to `skipped` and leaves `inserted` and `updated` as they were,
and appends that one message to `errors`; the message is in the final list, and every
message of the final list starts with the ordinal of the row for which it was appended. -/
theorem ingestCSV_missing_key (fs : FsOracle) (clock : Nat → String) (m : DbModule)
    (pre post : List Row) (row : Row) (stats : Stats)
    (hkey : row.account_number = none ∨ ∃ s, row.account_number = some s ∧ jsTrim s = "")
    (hrun : (ingestCSV fs clock m (pre ++ row :: post)).2 = Except.ok stats) :
    validateRow row (pre.length + 2) =
      { valid := false, errors := [missingAccountNumberMessage (pre.length + 2)],
        data := none } ∧
    missingAccountNumberMessage (pre.length + 2) =
      "Row " ++ toString (pre.length + 2) ++ ": Missing required field 'account_number'" ∧
    (onData fs clock (runAfter fs clock m pre) row).store = (runAfter fs clock m pre).store ∧
    (∀ now a, (upsertAccount fs now (runAfter fs clock m pre).store a).1
      ≠ (runAfter fs clock m pre).store) ∧
    (onData fs clock (runAfter fs clock m pre) row).seenAccounts
      = (runAfter fs clock m pre).seenAccounts ∧
    (onData fs clock (runAfter fs clock m pre) row).stats =
      { (runAfter fs clock m pre).stats with
        total := pre.length + 1,
        skipped := (runAfter fs clock m pre).stats.skipped + 1,
        errors := (runAfter fs clock m pre).stats.errors ++
          [missingAccountNumberMessage (pre.length + 2)] } ∧
    (∃ later, stats.errors = (runAfter fs clock m pre).stats.errors ++
      missingAccountNumberMessage (pre.length + 2) :: later) ∧
    (∀ msg ∈ stats.errors, ∃ pre1 row1 post1 rest,
      pre ++ row :: post = pre1 ++ row1 :: post1 ∧
      msg ∈ rowMessages fs clock (runAfter fs clock m pre1) row1 ∧
      msg = "Row " ++ toString (pre1.length + 2) ++ ": " ++ rest) := by
  have htotal : ∀ l, (runAfter fs clock m l).stats.total = l.length := by
    intro l
    unfold runAfter
    rw [processRows_total]
    simp [startRun]
  have hv := validateRow_missing_key row (pre.length + 2) hkey
  have hnd : normalizedData row = none := by
    rw [← validateRow_data row (pre.length + 2), hv]
  have hstep := onData_invalid fs clock (runAfter fs clock m pre) hnd
  rw [htotal pre, hv] at hstep
  obtain ⟨_, hstats⟩ := ingestCSV_stats_of_ok fs clock m (pre ++ row :: post) hrun
  obtain ⟨t0, h0⟩ := initDb_db_isSome fs m
  have hstart : (startRun (initDb fs m).1).store.db = some t0 := h0
  refine ⟨hv, rfl, by rw [hstep], ?_, by rw [hstep], by rw [hstep], ?_, ?_⟩
  · intro now a hc
    obtain ⟨t1, hdb, _, _, _⟩ := processRows_table fs clock hstart pre
    have hw := upsertAccount_writes fs now a hdb
    unfold runAfter at hc
    rw [hc] at hw
    omega
  · have happ : processRows fs clock (startRun (initDb fs m).1) (pre ++ row :: post) =
        processRows fs clock (onData fs clock (runAfter fs clock m pre) row) post := by
      simp [processRows, runAfter, List.foldl_append]
    obtain ⟨later, hl⟩ :=
      processRows_errors_prefix fs clock (onData fs clock (runAfter fs clock m pre) row) post
    rw [hstep] at hl
    refine ⟨later, ?_⟩
    rw [hstats, happ, hstep, hl]
    simp
  · intro msg hmsg
    rw [hstats] at hmsg
    rcases processRows_errors_origin fs clock _ _ msg hmsg with h | ⟨pre1, row1, post1, hrows, hm⟩
    · simp [startRun] at h
    · obtain ⟨rest, hrest⟩ := (onData_errors fs clock (runAfter fs clock m pre1) row1).2 msg hm
      rw [htotal pre1] at hrest
      exact ⟨pre1, row1, post1, rest, hrows, hm, hrest⟩

theorem ingestCSV_missing_key_witness :
    (ingestCSV fsOk (fun _ => "t") emptyStore
      ([rowOf "A1" "10"] ++ rowOf "  " "abc" :: [rowOf "B2" "5"])).2 =
      Except.ok { total := 3, inserted := 2, updated := 0, skipped := 1,
                  errors := ["Row 3: Missing required field 'account_number'"] } ∧
    validateRow (rowOf "  " "abc") ([rowOf "A1" "10"].length + 2) =
      { valid := false, errors := [missingAccountNumberMessage ([rowOf "A1" "10"].length + 2)],
        data := none } :=
  ⟨by decide,
   (ingestCSV_missing_key fsOk (fun _ => "t") emptyStore [rowOf "A1" "10"] [rowOf "B2" "5"]
      (rowOf "  " "abc")
      { total := 3, inserted := 2, updated := 0, skipped := 1,
        errors := ["Row 3: Missing required field 'account_number'"] }
      (Or.inr ⟨"  ", rfl, by decide⟩) (by decide)).1⟩

end CollectWise
